import Mathlib

/-!
# Verification of the GitHub top-repositories scraper core

Shallow embedding of the repository's fetch/aggregation pipeline:

* `src/task_2/src/github_repos_scrapper.py` — `GithubReposScrapper`
  (`_safe_request` outcome classification, `get_repositories` orchestration
  and per-author commit aggregation, constructor defaults, `close`);
* `src/2/src/rate_limiter.py` — `RateLimiter` (semaphore permit pool with a
  once-per-second deficit refill loop);
* `src/task_2/src/models/repository.py` — the `Repository` /
  `RepositoryAuthorCommitsNum` dataclasses.

Python dynamic values are embedded as a `Json` inductive (dicts are
insertion-ordered association lists, as Python dicts are); a raised Python
exception is a `PyExc` carrying the exception class name and message, and
fallible code returns `Except PyExc _`.  The asyncio pieces (semaphores,
the refill task) are embedded as labelled transition systems on explicit
states.  `asyncio.gather` returns results in input-task order and the
fanned-out tasks share no mutable state, so the fan-out/fan-in is embedded
as an index-preserving traversal; an exception in any task makes the
gathered call raise, embedded as error propagation.
-/

set_option maxHeartbeats 1000000

namespace Scraper

mutual

/-- A Python/JSON dynamic value, as handled by the scraper
(`dict[str, Any]` objects, strings, ints, lists, `None`, booleans). -/
inductive Json where
  | null : Json
  | bool (b : Bool) : Json
  | num (n : Int) : Json
  | str (s : String) : Json
  | arr (elems : JsonList) : Json
  | obj (fields : JsonFields) : Json
  deriving DecidableEq

/-- The elements of a JSON array. -/
inductive JsonList where
  | nil : JsonList
  | cons (hd : Json) (tl : JsonList) : JsonList
  deriving DecidableEq

/-- The key/value pairs of a JSON object, in insertion order. -/
inductive JsonFields where
  | nil : JsonFields
  | cons (k : String) (v : Json) (tl : JsonFields) : JsonFields
  deriving DecidableEq

end

/-- A raised Python exception: its class name and its message.  The scraper
raises `RuntimeError(...)` for every classified HTTP failure, and field
accesses on raw dicts can raise `KeyError` / `TypeError` /
`AttributeError`. -/
structure PyExc where
  cls : String
  msg : String
  deriving DecidableEq

def keyError (k : String) : PyExc := ⟨"KeyError", k⟩

def runtimeError (m : String) : PyExc := ⟨"RuntimeError", m⟩

def attributeError (m : String) : PyExc := ⟨"AttributeError", m⟩

def typeError (m : String) : PyExc := ⟨"TypeError", m⟩

namespace JsonFields

/-- First value stored under the key, if any (Python dict keys are unique,
so first-match equals the dict lookup). -/
def find? : JsonFields → String → Option Json
  | .nil, _ => none
  | .cons k v tl, key => if k = key then some v else find? tl key

/-- Build an object's field list from a Lean list. -/
def ofList : List (String × Json) → JsonFields
  | [] => .nil
  | (k, v) :: rest => .cons k v (ofList rest)

end JsonFields

namespace JsonList

def toList : JsonList → List Json
  | .nil => []
  | .cons x tl => x :: toList tl

def ofList : List Json → JsonList
  | [] => .nil
  | x :: rest => .cons x (ofList rest)

end JsonList

namespace Json

/-- Python truthiness (`bool(x)`): `None`, `False`, `0`, `""`, `[]`, `{}`
are falsy, everything else truthy. -/
def truthy : Json → Bool
  | .null => false
  | .bool b => b
  | .num n => n != 0
  | .str s => !s.isEmpty
  | .arr .nil => false
  | .arr _ => true
  | .obj .nil => false
  | .obj _ => true

/-- Whether the value is a dict. -/
def isObj : Json → Bool
  | .obj _ => true
  | _ => false

/-- `d.get(k)` on a value already known to be a dict; total helper used to
name field values (`None` when the key is absent or the value not a dict). -/
def getd : Json → String → Json
  | .obj fs, k => (fs.find? k).getD .null
  | _, _ => .null

/-- Whether the value is a dict containing the key. -/
def hasKey : Json → String → Bool
  | .obj fs, k => (fs.find? k).isSome
  | _, _ => false

/-- Python subscript `d[k]`: the stored value, `KeyError` when the key is
absent, `TypeError` when the value is not a dict. -/
def getItem : Json → String → Except PyExc Json
  | .obj fs, k =>
    match fs.find? k with
    | some v => .ok v
    | none => .error (keyError k)
  | _, _ => .error (typeError "object is not subscriptable")

/-- Python `d.get(k)` as executed at runtime: `AttributeError` when the
receiver is not a dict, otherwise the stored value or `None`. -/
def dictGet : Json → String → Except PyExc Json
  | .obj fs, k => .ok ((fs.find? k).getD .null)
  | _, _ => .error (attributeError "object has no attribute get")

end Json

/-- Python `a or b`. -/
def pyOr (a b : Json) : Json := if a.truthy then a else b

/-! ## `GithubReposScrapper._safe_request`

One physical HTTP attempt either fails at the transport (aiohttp's
`ClientError`, caught by the `except ClientError` clause and re-raised as
`RuntimeError("Network error: ...")` chained from the cause) or yields a
response with a status, a body text and a decoded JSON payload.  The
status branches of `_safe_request` are checked in source order:
`>= 500`, then `== 403`, then `>= 400`, else `resp.json()` is returned.
(A JSON-decode failure on a success status is an aiohttp `ClientError`
and would surface through the transport-error case.) -/

/-- Outcome of the single HTTP attempt `self._session.request(...)`. -/
inductive RequestOutcome where
  | transportError (cause : String) : RequestOutcome
  | response (status : Nat) (body : String) (payload : Json) : RequestOutcome
  deriving DecidableEq

/-- The classification performed by `_safe_request` on one outcome. -/
def classifyResponse : RequestOutcome → Except PyExc Json
  | .transportError cause => .error (runtimeError ("Network error: " ++ cause))
  | .response status body payload =>
    if 500 ≤ status then
      .error (runtimeError ("GitHub server error " ++ toString status))
    else if status = 403 then
      .error (runtimeError ("Forbidden/Ratelimit: " ++ body))
    else if 400 ≤ status then
      .error (runtimeError ("Client error " ++ toString status ++ ": " ++ body))
    else
      .ok payload

/-- `_safe_request` issues exactly one request (no retry loop): its result
is the classification of the first (and only) outcome the transport
produces.  `send n` is the outcome the transport would give to the `n`-th
physical request of the call. -/
def safeRequest (send : Nat → RequestOutcome) : Except PyExc Json :=
  classifyResponse (send 0)

/-- The class of the exception raised by a classified outcome, if any. -/
def raisedClass : Except PyExc Json → Option String
  | .error e => some e.cls
  | .ok _ => none

/-! ## Data model (`src/task_2/src/models/repository.py`)

The dataclass fields are annotated `str` / `int` in the source, but plain
dataclasses do not enforce annotations at runtime, so field values stay
embedded as `Json`; `position` is always the computed `idx + 1`. -/

/-- `RepositoryAuthorCommitsNum`: commits of one author over the last day. -/
structure RepositoryAuthorCommitsNum where
  author : Json
  commits_num : Int
  deriving DecidableEq

/-- `Repository`: one scraped repository with its statistics. -/
structure Repository where
  name : Json
  owner : Json
  position : Int
  stars : Json
  watchers : Json
  forks : Json
  language : Json
  authors_commits_num_today : List RepositoryAuthorCommitsNum
  deriving DecidableEq

/-! ## Author aggregation inside `get_repositories.process_repo`

```
authors: dict[str, int] = {}
for commit in commits:
    author_info = commit.get("author")
    if not author_info:
        continue
    author_name = author_info.get("login") or "unknown"
    authors[author_name] = authors.get(author_name, 0) + 1
```
-/

/-- `authors[author_name] = authors.get(author_name, 0) + 1` on an
insertion-ordered dict: increment the existing entry in place, or append a
fresh entry with count 1. -/
def bump : List (Json × Int) → Json → List (Json × Int)
  | [], k => [(k, 1)]
  | (k1, v) :: rest, k => if k = k1 then (k1, v + 1) :: rest else (k1, v) :: bump rest k

/-- The aggregation loop of `process_repo`, with the accumulated `authors`
dict made explicit.  A raised exception (e.g. `commit.get` on a non-dict)
aborts the loop and propagates. -/
def aggregateAuthors : List Json → List (Json × Int) → Except PyExc (List (Json × Int))
  | [], acc => .ok acc
  | commit :: rest, acc =>
    match commit.dictGet "author" with
    | .error e => .error e
    | .ok authorInfo =>
      if authorInfo.truthy then
        match authorInfo.dictGet "login" with
        | .error e => .error e
        | .ok login => aggregateAuthors rest (bump acc (pyOr login (.str "unknown")))
      else
        aggregateAuthors rest acc

/-! ## Orchestration (`get_repositories`) -/

/-- The `try: commits = await self._get_repository_commits(...)
except Exception: commits = []` downgrade: only the fetch is inside the
`try`, and any failure of it is replaced by the empty commit list. -/
def commitsOrEmpty (res : Except PyExc (List Json)) : List Json :=
  match res with
  | .ok cs => cs
  | .error _ => []

/-- `process_repo(repo, position)`: field accesses on the raw search item,
the guarded commit fetch, the aggregation, and the `Repository`
construction, in source evaluation order. -/
def processRepo (fetchCommits : Json → Json → Except PyExc (List Json))
    (repo : Json) (position : Int) : Except PyExc Repository := do
  let ownerObj ← repo.getItem "owner"
  let owner ← ownerObj.getItem "login"
  let repoName ← repo.getItem "name"
  let commits : List Json := commitsOrEmpty (fetchCommits owner repoName)
  let authors ← aggregateAuthors commits []
  let stars ← repo.getItem "stargazers_count"
  let watchers ← repo.getItem "watchers_count"
  let forks ← repo.getItem "forks_count"
  .ok { name := repoName, owner := owner, position := position,
        stars := stars, watchers := watchers, forks := forks,
        language := pyOr (repo.getd "language") (.str "unknown"),
        authors_commits_num_today := authors.map (fun p => ⟨p.1, p.2⟩) }

/-- The fan-out `[process_repo(repo, idx + 1) for idx, repo in
enumerate(repos_data)]` joined by `await asyncio.gather(*tasks)`: gather
returns results in task order (not completion order) and the tasks share
no mutable state, so the join is the index-ordered list of per-task
results; an exception in any task makes the gathered call raise. -/
def processAll (fetchCommits : Json → Json → Except PyExc (List Json)) :
    List Json → Int → Except PyExc (List Repository)
  | [], _ => .ok []
  | repo :: rest, pos => do
    let r ← processRepo fetchCommits repo pos
    let rs ← processAll fetchCommits rest (pos + 1)
    .ok (r :: rs)

/-- `_get_top_repositories(limit)`: one `_make_request` to the search
endpoint (its outcome is the parameter) followed by `data["items"]`. -/
def getTopRepositories (searchResult : Except PyExc Json) : Except PyExc Json := do
  let data ← searchResult
  data.getItem "items"

/-- `enumerate(repos_data)` iterates the fetched items; the search payload
`items` is a JSON array, embedded as its element list (iterating a
non-array payload is embedded as the raised `TypeError`). -/
def asList : Json → Except PyExc (List Json)
  | .arr xs => .ok xs.toList
  | _ => .error (typeError "object is not iterable")

/-- `get_repositories(limit)`: fetch the ranked list (step 1; a failure
here propagates), fan out `process_repo` per item with `position = idx + 1`,
gather in order. -/
def getRepositories (searchResult : Except PyExc Json)
    (fetchCommits : Json → Json → Except PyExc (List Json)) :
    Except PyExc (List Repository) := do
  let reposData ← getTopRepositories searchResult
  let items ← asList reposData
  processAll fetchCommits items 1

/-! ## Constructor defaults (`GithubReposScrapper.__init__`)

```
self._mcr = asyncio.Semaphore(max_concurrent_requests or 10)
self._rate_limiter = RateLimiter(requests_per_second or 5)
```
Both keyword parameters default to `None`, so an omitted argument and an
explicit `None` take the same path through `or`. -/

/-- Python `x or d` for `x : int | None`: `d` when `x` is `None` (or the
falsy `0`), otherwise `x` itself. -/
def pyOrDefault (v : Option Int) (d : Int) : Int :=
  match v with
  | none => d
  | some x => if x = 0 then d else x

/-- The capacity handed to `asyncio.Semaphore` in `__init__`. -/
def scrapperMcrCapacity (maxConcurrentRequests : Option Int) : Int :=
  pyOrDefault maxConcurrentRequests 10

/-- The rate handed to `RateLimiter` in `__init__`. -/
def scrapperRateLimit (requestsPerSecond : Option Int) : Int :=
  pyOrDefault requestsPerSecond 5

/-! ## `RateLimiter` (`src/2/src/rate_limiter.py`)

State: the immutable configured rate `self._rate_limit` and the permit
semaphore's counter `self._lock._value` (initially `rate_limit`).  The
background `_reset_loop` sleeps one second, then atomically (no `await`
between the read of `_value` and the releases) performs
```
to_release = self._rate_limit - self._lock._value
if to_release > 0:
    for _ in range(to_release):
        self._lock.release()
```
`acquire()` is `await self._lock.acquire()`: it completes only when a
permit is available (`_value > 0`), consuming one; otherwise the caller
stays parked.  Runs are event sequences in which `acquire` is the
completion of an `acquire()` call and `tick` one refill iteration. -/

/-- The `RateLimiter` state. -/
structure RLState where
  rateLimit : Int
  value : Nat
  deriving DecidableEq

/-- A fresh `RateLimiter(rate_limit)`. -/
def rlInit (r : Int) : RLState := ⟨r, r.toNat⟩

/-- One iteration of `_reset_loop` after the one-second sleep. -/
def rlTick (s : RLState) : RLState :=
  let toRelease : Int := s.rateLimit - (s.value : Int)
  if 0 < toRelease then { s with value := s.value + toRelease.toNat } else s

/-- Events observable on a `RateLimiter`. -/
inductive RLEvent where
  | acquire : RLEvent
  | tick : RLEvent
  deriving DecidableEq

/-- One step: an `acquire()` completion is enabled only when a permit is
available; a refill tick is always enabled. -/
def rlStep (s : RLState) : RLEvent → Option RLState
  | .acquire => if 0 < s.value then some { s with value := s.value - 1 } else none
  | .tick => some (rlTick s)

/-- Run a sequence of events; `none` when some event was not enabled
(i.e. an `acquire()` would still be blocked at that point). -/
def rlRun (s : RLState) : List RLEvent → Option RLState
  | [] => some s
  | e :: es =>
    match rlStep s e with
    | some s2 => rlRun s2 es
    | none => none

/-! ## Concurrency gate (`self._mcr`, an `asyncio.Semaphore`)

`_safe_request` wraps its whole body in `async with self._mcr:`; that is
the only use of the semaphore, so every release is the scoped `__aexit__`
of a task that currently holds the permit.  `holders` counts tasks inside
the `async with` block. -/

/-- Gate state: available permits and current holders. -/
structure GateState where
  value : Nat
  holders : Nat
  deriving DecidableEq

/-- A fresh `asyncio.Semaphore(m)` with no holder. -/
def gateInit (m : Nat) : GateState := ⟨m, 0⟩

/-- Events on the gate: `acquire` is `__aenter__` completing, `release`
the scoped `__aexit__` of a holder. -/
inductive GateEvent where
  | acquire : GateEvent
  | release : GateEvent
  deriving DecidableEq

/-- One gate step; `acquire` is enabled only when a permit is available,
`release` only for a current holder (scoped use guarantees this shape). -/
def gateStep (s : GateState) : GateEvent → Option GateState
  | .acquire => if 0 < s.value then some ⟨s.value - 1, s.holders + 1⟩ else none
  | .release => if 0 < s.holders then some ⟨s.value + 1, s.holders - 1⟩ else none

/-- Run a sequence of gate events. -/
def gateRun (s : GateState) : List GateEvent → Option GateState
  | [] => some s
  | e :: es =>
    match gateStep s e with
    | some s2 => gateRun s2 es
    | none => none

/-- The gate events performed by one `_safe_request` call: the
`async with self._mcr:` block acquires on entry and releases on exit on
every path — also when the body (rate-limiter wait, HTTP request,
classification) raises, which is the `failed = true` case. -/
def safeRequestGateTrace (failed : Bool) : List GateEvent :=
  match failed with
  | false => [.acquire, .release]
  | true => [.acquire, .release]

/-! ## Shutdown (`GithubReposScrapper.close` / `RateLimiter.close`)

`GithubReposScrapper.close` is exactly `await self._session.close()`; it
never touches `self._rate_limiter`.  `RateLimiter.close` sets
`self._running = False`, cancels `self._reset_task` and awaits it; it
releases no semaphore permit and wakes no parked `acquire()` caller. -/

/-- The shutdown-relevant state of a scraper and its owned rate limiter:
whether the HTTP session is closed, whether the refill loop is still
running (`RateLimiter._running` and the task not cancelled), the limiter
semaphore's counter and the number of callers parked in `acquire()`. -/
structure ShutdownState where
  sessionClosed : Bool
  limiterRunning : Bool
  limiterTaskCancelled : Bool
  limiterValue : Nat
  limiterWaiters : Nat
  deriving DecidableEq

/-- `GithubReposScrapper.close`: `await self._session.close()` is its only
action. -/
def scrapperClose (s : ShutdownState) : ShutdownState :=
  { s with sessionClosed := true }

/-- `RateLimiter.close`: stop flag, cancel the refill task, swallow the
`CancelledError`; no permit is released. -/
def rateLimiterClose (s : ShutdownState) : ShutdownState :=
  { s with limiterRunning := false, limiterTaskCancelled := true }

/-! ## Shape predicates on raw payloads

`process_repo` reads `repo["owner"]["login"]`, `repo["name"]`,
`repo["stargazers_count"]`, `repo["watchers_count"]`, `repo["forks_count"]`
without any guard; these succeed exactly on items of the following shape. -/

/-- A search item on which every unguarded field access of `process_repo`
succeeds. -/
def wellFormedItem (r : Json) : Bool :=
  r.hasKey "owner" && (r.getd "owner").hasKey "login" && r.hasKey "name" &&
  r.hasKey "stargazers_count" && r.hasKey "watchers_count" && r.hasKey "forks_count"

/-- A commit entry on which the aggregation loop raises nothing: the entry
is a dict, and its `author`, when truthy, is a dict too. -/
def wellFormedCommit (c : Json) : Bool :=
  c.isObj && (!(c.getd "author").truthy || (c.getd "author").isObj)

/-- A fetch outcome whose commit list, when it succeeded, consists of
well-formed entries (a failed fetch is vacuously fine: it is downgraded). -/
def fetchedCommitsWf (res : Except PyExc (List Json)) : Bool :=
  match res with
  | .ok cs => cs.all wellFormedCommit
  | .error _ => true

/-- Every commit list that `fetchCommits` successfully returns for the
coordinates of one of the given items consists of well-formed entries. -/
def commitsOk (fetchCommits : Json → Json → Except PyExc (List Json))
    (items : List Json) : Bool :=
  items.all (fun r =>
    fetchedCommitsWf (fetchCommits ((r.getd "owner").getd "login") (r.getd "name")))

/-! ## Spec-side description of the aggregation

These definitions follow the words of the specification's aggregation
clause (group by author name in first-seen order, count occurrences) and
are compared with the aggregation loop embedded above. -/

/-- The author name the loop derives for each commit it counts: commits
whose `author` is falsy are skipped, otherwise `login`-or-`"unknown"`. -/
def authorNames : List Json → List Json
  | [] => []
  | c :: rest =>
    let a := c.getd "author"
    if a.truthy then pyOr (a.getd "login") (.str "unknown") :: authorNames rest
    else authorNames rest

/-- First-seen-order deduplication, skipping names already `seen`. -/
def firstSeen (seen : List Json) : List Json → List Json
  | [] => []
  | k :: rest => if k ∈ seen then firstSeen seen rest else k :: firstSeen (k :: seen) rest

/-- Number of occurrences of a name. -/
def countJ : List Json → Json → Int
  | [], _ => 0
  | x :: rest, k => (if x = k then 1 else 0) + countJ rest k

/-- The count stored for a key in the accumulated dict (0 when absent). -/
def findVal (m : List (Json × Int)) (k : Json) : Int :=
  match m.find? (fun p => p.1 = k) with
  | some p => p.2
  | none => 0

/-! ## Concrete fixtures

Closed inputs used to instantiate the theorems below on explicit data. -/

/-- A well-formed search item: repository `X` of owner `o1`. -/
def itemX : Json :=
  .obj (.cons "owner" (.obj (.cons "login" (.str "o1") .nil))
    (.cons "name" (.str "X") (.cons "stargazers_count" (.num 100)
    (.cons "watchers_count" (.num 10) (.cons "forks_count" (.num 5)
    (.cons "language" (.str "Python") .nil))))))

/-- A well-formed search item: repository `Y` of owner `o2`, `language`
absent. -/
def itemY : Json :=
  .obj (.cons "owner" (.obj (.cons "login" (.str "o2") .nil))
    (.cons "name" (.str "Y") (.cons "stargazers_count" (.num 50)
    (.cons "watchers_count" (.num 5) (.cons "forks_count" (.num 2) .nil)))))

/-- The items of a successful two-repository search payload. -/
def itemsXY : JsonList := .cons itemX (.cons itemY .nil)

/-- A successful search response containing `itemX` and `itemY`. -/
def searchOkTwo : Except PyExc Json :=
  .ok (.obj (.cons "items" (.arr itemsXY) .nil))

/-- A commit authored by `alice`. -/
def commitByAlice : Json :=
  .obj (.cons "author" (.obj (.cons "login" (.str "alice") .nil)) .nil)

/-- A commit-fetch collaborator: three commits by `alice` for owner `o1`,
a network failure for every other owner. -/
def fetchCommitsYFails (owner repo : Json) : Except PyExc (List Json) :=
  if owner = Json.str "o1" then .ok [commitByAlice, commitByAlice, commitByAlice]
  else .error (runtimeError "Network error: boom")

/-- A commit whose author has login `a`. -/
def commitA : Json :=
  .obj (.cons "author" (.obj (.cons "login" (.str "a") .nil)) .nil)

/-- A commit whose author has login `b`. -/
def commitB : Json :=
  .obj (.cons "author" (.obj (.cons "login" (.str "b") .nil)) .nil)

/-- A commit whose `author` is `null` (identity withheld by the platform). -/
def commitNullAuthor : Json := .obj (.cons "author" .null .nil)

/-- The `Repository` produced for `itemX` at position 1 under
`fetchCommitsYFails`. -/
def repoX : Repository :=
  ⟨.str "X", .str "o1", 1, .num 100, .num 10, .num 5, .str "Python",
    [⟨.str "alice", 3⟩]⟩

/-- The `Repository` produced for `itemY` at position 2 under
`fetchCommitsYFails`: its commit fetch failed, so no author data. -/
def repoY : Repository :=
  ⟨.str "Y", .str "o2", 2, .num 50, .num 5, .num 2, .str "unknown", []⟩

/-- A search item with `owner.login` and `name` but no
`stargazers_count` / `watchers_count` / `forks_count`. -/
def itemMissingStars : Json :=
  .obj (.cons "owner" (.obj (.cons "login" (.str "o") .nil))
    (.cons "name" (.str "r") .nil))

/-- A successful search response whose single item lacks the count
fields. -/
def searchMissingStars : Except PyExc Json :=
  .ok (.obj (.cons "items" (.arr (.cons itemMissingStars .nil)) .nil))

/-! ## Helper lemmas -/

theorem Json.hasKey_getItem (j : Json) (k : String) (h : j.hasKey k = true) :
    j.getItem k = .ok (j.getd k) := by
  cases j with
  | obj fs =>
    simp only [Json.hasKey, Option.isSome_iff_exists] at h
    obtain ⟨v, hv⟩ := h
    simp [Json.getItem, Json.getd, hv]
  | null => simp [Json.hasKey] at h
  | bool b => simp [Json.hasKey] at h
  | num n => simp [Json.hasKey] at h
  | str s => simp [Json.hasKey] at h
  | arr xs => simp [Json.hasKey] at h

theorem Json.isObj_dictGet (j : Json) (k : String) (h : j.isObj = true) :
    j.dictGet k = .ok (j.getd k) := by
  cases j <;> simp_all [Json.isObj, Json.dictGet, Json.getd]

theorem except_bind_ok {α β : Type} {x : Except PyExc α} {f : α → Except PyExc β}
    {b : β} (h : (x >>= f) = .ok b) : ∃ a, x = .ok a ∧ f a = .ok b := by
  cases x with
  | ok a => exact ⟨a, rfl, h⟩
  | error e => simp [Bind.bind, Except.bind] at h

theorem except_ok_bind {α β : Type} (a : α) (f : α → Except PyExc β) :
    ((Except.ok a : Except PyExc α) >>= f) = f a := rfl

theorem except_error_bind {α β : Type} (e : PyExc) (f : α → Except PyExc β) :
    ((Except.error e : Except PyExc α) >>= f) = .error e := rfl

theorem bump_map_fst (m : List (Json × Int)) (k : Json) :
    (bump m k).map Prod.fst =
      if k ∈ m.map Prod.fst then m.map Prod.fst else m.map Prod.fst ++ [k] := by
  induction m with
  | nil => simp [bump]
  | cons q rest ih =>
    obtain ⟨k1, v⟩ := q
    by_cases hk : k = k1
    · subst hk
      simp [bump]
    · simp only [bump, if_neg hk, List.map_cons, List.mem_cons]
      rw [ih]
      by_cases hmem : k ∈ rest.map Prod.fst
      · simp [hmem, hk]
      · simp [hmem, hk]

theorem findVal_nil (k : Json) : findVal [] k = 0 := rfl

theorem findVal_cons (q : Json × Int) (rest : List (Json × Int)) (k : Json) :
    findVal (q :: rest) k = if q.1 = k then q.2 else findVal rest k := by
  obtain ⟨k1, v⟩ := q
  by_cases h : k1 = k
  · simp [findVal, List.find?, h]
  · simp [findVal, List.find?, h]

theorem findVal_bump_self (m : List (Json × Int)) (k : Json) :
    findVal (bump m k) k = findVal m k + 1 := by
  induction m with
  | nil => simp [bump, findVal_cons, findVal_nil]
  | cons q rest ih =>
    obtain ⟨k1, v⟩ := q
    by_cases hk : k = k1
    · subst hk
      simp [bump, findVal_cons]
    · have hk1 : k1 ≠ k := fun h => hk h.symm
      simp [bump, if_neg hk, findVal_cons, hk1, ih]

theorem findVal_bump_ne (m : List (Json × Int)) (k k2 : Json) (h : k2 ≠ k) :
    findVal (bump m k) k2 = findVal m k2 := by
  have hk2 : k ≠ k2 := fun hh => h hh.symm
  induction m with
  | nil => simp [bump, findVal_cons, findVal_nil, hk2]
  | cons q rest ih =>
    obtain ⟨k1, v⟩ := q
    by_cases hk : k = k1
    · subst hk
      simp [bump, findVal_cons, hk2]
    · by_cases hk1 : k1 = k2
      · subst hk1
        simp [bump, if_neg hk, findVal_cons]
      · simp [bump, if_neg hk, findVal_cons, hk1, ih]

theorem bump_pos (m : List (Json × Int)) (k : Json) (h : ∀ p ∈ m, 0 < p.2) :
    ∀ p ∈ bump m k, 0 < p.2 := by
  induction m with
  | nil =>
    intro p hp
    simp only [bump, List.mem_singleton] at hp
    subst hp
    exact Int.one_pos
  | cons q rest ih =>
    obtain ⟨k1, v⟩ := q
    intro p hp
    by_cases hk : k = k1
    · rw [show bump ((k1, v) :: rest) k = if k = k1 then (k1, v + 1) :: rest
            else (k1, v) :: bump rest k from rfl, if_pos hk] at hp
      rcases List.mem_cons.mp hp with h1 | h1
      · subst h1
        have hv := h (k1, v) (List.mem_cons_self _ _)
        simp only at hv ⊢
        omega
      · exact h p (List.mem_cons_of_mem _ h1)
    · rw [show bump ((k1, v) :: rest) k = if k = k1 then (k1, v + 1) :: rest
            else (k1, v) :: bump rest k from rfl, if_neg hk] at hp
      rcases List.mem_cons.mp hp with h1 | h1
      · subst h1
        exact h (k1, v) (List.mem_cons_self _ _)
      · exact ih (fun q hq => h q (List.mem_cons_of_mem _ hq)) p h1

theorem bump_nodup (m : List (Json × Int)) (k : Json)
    (h : (m.map Prod.fst).Nodup) : ((bump m k).map Prod.fst).Nodup := by
  rw [bump_map_fst]
  by_cases hmem : k ∈ m.map Prod.fst
  · simpa [hmem] using h
  · simp only [if_neg hmem]
    exact List.Nodup.append h (List.nodup_singleton k) (by simpa using hmem)

theorem findVal_of_mem (m : List (Json × Int)) (hnd : (m.map Prod.fst).Nodup)
    (p : Json × Int) (hp : p ∈ m) : findVal m p.1 = p.2 := by
  induction m with
  | nil => cases hp
  | cons q rest ih =>
    rw [List.map_cons, List.nodup_cons] at hnd
    rcases List.mem_cons.mp hp with hp1 | hp1
    · subst hp1
      rw [findVal_cons, if_pos rfl]
    · have hne : q.1 ≠ p.1 := by
        intro hcontra
        exact hnd.1 (hcontra ▸ List.mem_map_of_mem Prod.fst hp1)
      rw [findVal_cons, if_neg hne]
      exact ih hnd.2 hp1

theorem firstSeen_congr (names : List Json) (s1 s2 : List Json)
    (h : ∀ x, x ∈ s1 ↔ x ∈ s2) : firstSeen s1 names = firstSeen s2 names := by
  induction names generalizing s1 s2 with
  | nil => simp [firstSeen]
  | cons k rest ih =>
    by_cases hk : k ∈ s1
    · have hk2 : k ∈ s2 := (h k).mp hk
      simp only [firstSeen, if_pos hk, if_pos hk2]
      exact ih s1 s2 h
    · have hk2 : k ∉ s2 := fun hc => hk ((h k).mpr hc)
      simp only [firstSeen, if_neg hk, if_neg hk2]
      rw [ih (k :: s1) (k :: s2) (by intro x; simp [h x])]

theorem foldl_bump_map_fst (names : List Json) (acc : List (Json × Int)) :
    ((names.foldl bump acc).map Prod.fst) =
      acc.map Prod.fst ++ firstSeen (acc.map Prod.fst) names := by
  induction names generalizing acc with
  | nil => simp [firstSeen]
  | cons k rest ih =>
    simp only [List.foldl_cons]
    rw [ih (bump acc k), bump_map_fst]
    by_cases hmem : k ∈ acc.map Prod.fst
    · simp only [if_pos hmem, firstSeen, if_pos hmem]
    · simp only [if_neg hmem, firstSeen, if_neg hmem]
      rw [firstSeen_congr rest (acc.map Prod.fst ++ [k]) (k :: acc.map Prod.fst)
        (by intro x; simp; tauto)]
      simp

theorem foldl_bump_findVal (names : List Json) (acc : List (Json × Int)) (k : Json) :
    findVal (names.foldl bump acc) k = findVal acc k + countJ names k := by
  induction names generalizing acc with
  | nil => simp [countJ]
  | cons x rest ih =>
    simp only [List.foldl_cons, countJ]
    rw [ih (bump acc x)]
    by_cases hx : x = k
    · rw [hx, findVal_bump_self, if_pos rfl]
      omega
    · rw [findVal_bump_ne acc x k (fun h => hx h.symm), if_neg hx]
      omega

theorem foldl_bump_pos (names : List Json) (acc : List (Json × Int))
    (h : ∀ p ∈ acc, 0 < p.2) : ∀ p ∈ names.foldl bump acc, 0 < p.2 := by
  induction names generalizing acc with
  | nil => exact h
  | cons x rest ih => exact ih (bump acc x) (bump_pos acc x h)

theorem foldl_bump_nodup (names : List Json) (acc : List (Json × Int))
    (h : (acc.map Prod.fst).Nodup) : ((names.foldl bump acc).map Prod.fst).Nodup := by
  induction names generalizing acc with
  | nil => exact h
  | cons x rest ih => exact ih (bump acc x) (bump_nodup acc x h)

theorem firstSeen_nodup (names : List Json) (seen : List Json) :
    (firstSeen seen names).Nodup ∧ ∀ x ∈ firstSeen seen names, x ∉ seen := by
  induction names generalizing seen with
  | nil => simp [firstSeen]
  | cons k rest ih =>
    by_cases hk : k ∈ seen
    · simpa [firstSeen, if_pos hk] using ih seen
    · obtain ⟨hnd, hout⟩ := ih (k :: seen)
      refine ⟨?_, ?_⟩
      · simp only [firstSeen, if_neg hk, List.nodup_cons]
        exact ⟨fun hc => (hout k hc) (by simp), hnd⟩
      · intro x hx
        simp only [firstSeen, if_neg hk, List.mem_cons] at hx
        rcases hx with hx | hx
        · subst hx; exact hk
        · exact fun hc => (hout x hx) (List.mem_cons_of_mem _ hc)

theorem aggregateAuthors_eq_foldl (commits : List Json) (acc : List (Json × Int))
    (h : commits.all wellFormedCommit = true) :
    aggregateAuthors commits acc = .ok ((authorNames commits).foldl bump acc) := by
  induction commits generalizing acc with
  | nil => simp [aggregateAuthors, authorNames]
  | cons c rest ih =>
    rw [List.all_cons, Bool.and_eq_true] at h
    obtain ⟨hc, hrest⟩ := h
    rw [wellFormedCommit, Bool.and_eq_true] at hc
    obtain ⟨hobj, hAuthor⟩ := hc
    have hget := Json.isObj_dictGet c "author" hobj
    by_cases ht : (c.getd "author").truthy = true
    · have hAobj : (c.getd "author").isObj = true := by
        rw [Bool.or_eq_true, Bool.not_eq_true'] at hAuthor
        rcases hAuthor with h1 | h1
        · rw [ht] at h1; cases h1
        · exact h1
      have hgetL := Json.isObj_dictGet (c.getd "author") "login" hAobj
      simp only [aggregateAuthors, hget, ht, if_true, hgetL, authorNames, List.foldl_cons]
      exact ih (bump acc _) hrest
    · rw [Bool.not_eq_true] at ht
      simp only [aggregateAuthors, hget, ht, Bool.false_eq_true, if_false, authorNames,
        List.foldl_cons]
      exact ih acc hrest

theorem aggregateAuthors_of_fetch (res : Except PyExc (List Json))
    (h : fetchedCommitsWf res = true) :
    ∃ m, aggregateAuthors (commitsOrEmpty res) [] = .ok m ∧
      ∀ e, res = .error e → m = [] := by
  cases res with
  | error e => exact ⟨[], rfl, fun _ _ => rfl⟩
  | ok cs =>
    rw [fetchedCommitsWf] at h
    exact ⟨_, aggregateAuthors_eq_foldl cs [] h, fun e hc => Except.noConfusion hc⟩

/-- Closed form of `process_repo` on a well-formed item, given the
aggregation result of the (possibly downgraded) commit list. -/
theorem processRepo_wf_eq (fetchCommits : Json → Json → Except PyExc (List Json))
    (r : Json) (pos : Int) (m : List (Json × Int))
    (hr : wellFormedItem r = true)
    (hagg : aggregateAuthors
      (commitsOrEmpty (fetchCommits ((r.getd "owner").getd "login") (r.getd "name"))) []
      = .ok m) :
    processRepo fetchCommits r pos = .ok {
      name := r.getd "name", owner := (r.getd "owner").getd "login", position := pos,
      stars := r.getd "stargazers_count", watchers := r.getd "watchers_count",
      forks := r.getd "forks_count", language := pyOr (r.getd "language") (.str "unknown"),
      authors_commits_num_today := m.map (fun p => ⟨p.1, p.2⟩) } := by
  simp only [wellFormedItem, Bool.and_eq_true] at hr
  obtain ⟨⟨⟨⟨⟨h1, h2⟩, h3⟩, h4⟩, h5⟩, h6⟩ := hr
  simp only [processRepo, Json.hasKey_getItem _ _ h1, Json.hasKey_getItem _ _ h2,
    Json.hasKey_getItem _ _ h3, Json.hasKey_getItem _ _ h4, Json.hasKey_getItem _ _ h5,
    Json.hasKey_getItem _ _ h6, except_ok_bind, hagg]

theorem processRepo_position (fetchCommits : Json → Json → Except PyExc (List Json))
    (r : Json) (pos : Int) (rep : Repository)
    (h : processRepo fetchCommits r pos = .ok rep) : rep.position = pos := by
  simp only [processRepo] at h
  obtain ⟨a1, _, h⟩ := except_bind_ok h
  obtain ⟨a2, _, h⟩ := except_bind_ok h
  obtain ⟨a3, _, h⟩ := except_bind_ok h
  obtain ⟨a4, _, h⟩ := except_bind_ok h
  obtain ⟨a5, _, h⟩ := except_bind_ok h
  obtain ⟨a6, _, h⟩ := except_bind_ok h
  obtain ⟨a7, _, h⟩ := except_bind_ok h
  injection h with h
  rw [← h]

theorem processAll_wf (fetchCommits : Json → Json → Except PyExc (List Json))
    (l : List Json) (pos : Int)
    (hl : l.all wellFormedItem = true) (hc : commitsOk fetchCommits l = true) :
    ∃ rs, processAll fetchCommits l pos = .ok rs ∧ rs.length = l.length ∧
      ∀ i (hi : i < l.length) (hi2 : i < rs.length), ∀ e,
        fetchCommits (((l.get ⟨i, hi⟩).getd "owner").getd "login")
            ((l.get ⟨i, hi⟩).getd "name") = .error e →
          (rs.get ⟨i, hi2⟩).authors_commits_num_today = [] := by
  induction l generalizing pos with
  | nil => exact ⟨[], rfl, rfl, by intro i hi; simp at hi⟩
  | cons r rest ih =>
    rw [List.all_cons, Bool.and_eq_true] at hl
    obtain ⟨hr, hrest⟩ := hl
    rw [commitsOk, List.all_cons, Bool.and_eq_true] at hc
    obtain ⟨hcr, hcrest⟩ := hc
    obtain ⟨m, hm, hme⟩ := aggregateAuthors_of_fetch _ hcr
    obtain ⟨rs, hrs, hlen, hidx⟩ := ih (pos + 1) hrest hcrest
    have hhead := processRepo_wf_eq fetchCommits r pos m hr hm
    refine ⟨{ name := r.getd "name", owner := (r.getd "owner").getd "login", position := pos,
              stars := r.getd "stargazers_count", watchers := r.getd "watchers_count",
              forks := r.getd "forks_count",
              language := pyOr (r.getd "language") (.str "unknown"),
              authors_commits_num_today := m.map (fun p => ⟨p.1, p.2⟩) } :: rs, ?_, ?_, ?_⟩
    · simp only [processAll, hhead, except_ok_bind, hrs]
    · simp [hlen]
    · intro i hi hi2 e hfc
      cases i with
      | zero =>
        have hm0 : m = [] := hme e hfc
        simp [hm0]
      | succ i =>
        have hia : i < rest.length := by simp only [List.length_cons] at hi; omega
        have hib : i < rs.length := by simp only [List.length_cons] at hi2; omega
        exact hidx i hia hib e hfc

theorem processAll_ok (fetchCommits : Json → Json → Except PyExc (List Json))
    (l : List Json) (pos : Int) (rs : List Repository)
    (h : processAll fetchCommits l pos = .ok rs) :
    rs.length = l.length ∧
    ∀ i (hi : i < l.length) (hi2 : i < rs.length),
      processRepo fetchCommits (l.get ⟨i, hi⟩) (pos + (i : Int)) = .ok (rs.get ⟨i, hi2⟩) := by
  induction l generalizing pos rs with
  | nil =>
    simp only [processAll] at h
    injection h with h
    subst h
    exact ⟨rfl, by intro i hi; simp at hi⟩
  | cons r rest ih =>
    simp only [processAll] at h
    obtain ⟨r0, hr0, h⟩ := except_bind_ok h
    obtain ⟨rs0, hrs0, h⟩ := except_bind_ok h
    injection h with h
    subst h
    obtain ⟨hlen, hidx⟩ := ih (pos + 1) rs0 hrs0
    refine ⟨by simp [hlen], ?_⟩
    intro i hi hi2
    cases i with
    | zero => simpa using hr0
    | succ i =>
      have hia : i < rest.length := by simp only [List.length_cons] at hi; omega
      have hib : i < rs0.length := by simp only [List.length_cons] at hi2; omega
      have hrec := hidx i hia hib
      have harith : pos + 1 + (i : Int) = pos + ((i + 1 : Nat) : Int) := by push_cast; ring
      rw [harith] at hrec
      exact hrec

theorem getRepositories_of_topError (searchResult : Except PyExc Json)
    (fetchCommits : Json → Json → Except PyExc (List Json)) (e : PyExc)
    (h : getTopRepositories searchResult = .error e) :
    getRepositories searchResult fetchCommits = .error e := by
  simp only [getRepositories, h, except_error_bind]

theorem getRepositories_of_topArr (searchResult : Except PyExc Json)
    (fetchCommits : Json → Json → Except PyExc (List Json)) (jl : JsonList)
    (h : getTopRepositories searchResult = .ok (.arr jl)) :
    getRepositories searchResult fetchCommits = processAll fetchCommits jl.toList 1 := by
  simp only [getRepositories, h, except_ok_bind, asList]

theorem rlTick_rateLimit (s : RLState) : (rlTick s).rateLimit = s.rateLimit := by
  simp only [rlTick]
  split <;> rfl

theorem rlTick_value_of_le (s : RLState) (hv : (s.value : Int) ≤ s.rateLimit) :
    ((rlTick s).value : Int) = s.rateLimit := by
  simp only [rlTick]
  split
  · dsimp only
    omega
  · omega

theorem rlStep_inv (r : Int) (s s2 : RLState) (e : RLEvent)
    (hrl : s.rateLimit = r) (hv : (s.value : Int) ≤ r)
    (h : rlStep s e = some s2) : s2.rateLimit = r ∧ (s2.value : Int) ≤ r := by
  subst hrl
  cases e with
  | acquire =>
    simp only [rlStep] at h
    by_cases hpos : 0 < s.value
    · rw [if_pos hpos] at h
      injection h with h
      subst h
      refine ⟨rfl, ?_⟩
      simp only []
      omega
    · rw [if_neg hpos] at h; cases h
  | tick =>
    simp only [rlStep] at h
    injection h with h
    subst h
    exact ⟨rlTick_rateLimit s, le_of_eq (rlTick_value_of_le s hv)⟩

theorem rlRun_inv (r : Int) (events : List RLEvent) (s0 s : RLState)
    (hrl : s0.rateLimit = r) (hv : (s0.value : Int) ≤ r)
    (h : rlRun s0 events = some s) : s.rateLimit = r ∧ (s.value : Int) ≤ r := by
  induction events generalizing s0 with
  | nil =>
    simp only [rlRun] at h
    injection h with h
    subst h
    exact ⟨hrl, hv⟩
  | cons e es ih =>
    simp only [rlRun] at h
    cases hstep : rlStep s0 e with
    | none => rw [hstep] at h; simp at h
    | some s2 =>
      rw [hstep] at h
      obtain ⟨h1, h2⟩ := rlStep_inv r s0 s2 e hrl hv hstep
      exact ih s2 h1 h2 h

theorem rlRun_replicate_acquire (rl : Int) (n : Nat) (v : Nat) (hn : n ≤ v) :
    rlRun ⟨rl, v⟩ (List.replicate n .acquire) = some ⟨rl, v - n⟩ := by
  induction n generalizing v with
  | zero => simp [rlRun]
  | succ n ih =>
    have hv : 0 < v := by omega
    simp only [List.replicate, rlRun, rlStep, if_pos hv]
    rw [ih (v - 1) (by omega)]
    have harith : v - 1 - n = v - (n + 1) := by omega
    rw [harith]

theorem rlRun_no_tick_count (events : List RLEvent) (s0 s : RLState)
    (hnt : RLEvent.tick ∉ events) (h : rlRun s0 events = some s) :
    s.value + events.count .acquire = s0.value := by
  induction events generalizing s0 with
  | nil =>
    simp only [rlRun] at h
    injection h with h
    subst h
    simp
  | cons e es ih =>
    have hes : RLEvent.tick ∉ es := fun hc => hnt (List.mem_cons_of_mem _ hc)
    cases e with
    | tick => exact absurd (List.mem_cons_self _ _) hnt
    | acquire =>
      simp only [rlRun, rlStep] at h
      by_cases hv : 0 < s0.value
      · rw [if_pos hv] at h
        have hrec := ih ⟨s0.rateLimit, s0.value - 1⟩ hes h
        have hrec2 : s.value + es.count RLEvent.acquire = s0.value - 1 := hrec
        rw [List.count_cons_self]
        omega
      · rw [if_neg hv] at h; simp at h

theorem gateStep_inv (m : Nat) (s s2 : GateState) (e : GateEvent)
    (hinv : s.value + s.holders = m) (h : gateStep s e = some s2) :
    s2.value + s2.holders = m := by
  cases e with
  | acquire =>
    simp only [gateStep] at h
    by_cases hv : 0 < s.value
    · rw [if_pos hv] at h
      injection h with h
      subst h
      simp only []
      omega
    · rw [if_neg hv] at h; cases h
  | release =>
    simp only [gateStep] at h
    by_cases hh : 0 < s.holders
    · rw [if_pos hh] at h
      injection h with h
      subst h
      simp only []
      omega
    · rw [if_neg hh] at h; cases h

theorem gateRun_inv (m : Nat) (events : List GateEvent) (s0 s : GateState)
    (hinv : s0.value + s0.holders = m) (h : gateRun s0 events = some s) :
    s.value + s.holders = m := by
  induction events generalizing s0 with
  | nil =>
    simp only [gateRun] at h
    injection h with h
    subst h
    exact hinv
  | cons e es ih =>
    simp only [gateRun] at h
    cases hstep : gateStep s0 e with
    | none => rw [hstep] at h; simp at h
    | some s2 => exact ih s2 (gateStep_inv m s0 s2 e hinv hstep) (by rw [hstep] at h; exact h)

/-! ## Claim theorems -/

/-- C10: when `max_concurrent_requests` is omitted or `None`, the
concurrency gate capacity defaults to 10; when `requests_per_second` is
omitted or `None`, the rate limiter is created with rate 5.  Both keyword
parameters of `__init__` default to `None`, so an omitted argument is the
`none` case. -/
theorem scrapperInit_defaults :
    scrapperMcrCapacity none = 10 ∧ scrapperRateLimit none = 5 :=
  ⟨rfl, rfl⟩

/-- C9: only the commit fetch is guarded by the downgrade.  For a search
result whose single item lacks `stargazers_count`, the ranked-list fetch
succeeds and every commit fetch succeeds, yet the unguarded field access
inside `process_repo` raises `KeyError` and the whole `get_repositories`
call fails with it. -/
theorem getRepositories_missing_field_fatal :
    getTopRepositories searchMissingStars = .ok (.arr (.cons itemMissingStars .nil)) ∧
    getRepositories searchMissingStars (fun o r => .ok []) =
      .error (keyError "stargazers_count") :=
  ⟨rfl, rfl⟩

/-- C8: evaluation of the shutdown path at the failing configuration (a
fresh scraper whose limiter is running and has one caller parked in
`acquire()`).  `GithubReposScrapper.close` leaves the refill loop running
and the reset task uncancelled, and even `RateLimiter.close` (which the
scraper never calls) releases no permit and leaves the waiter parked,
contradicting the claim that closing the fetcher stops the refill task
and leaves no `acquire()` caller blocked. -/
theorem scrapperClose_leaves_refill_running :
    (scrapperClose ⟨false, true, false, 0, 1⟩).sessionClosed = true ∧
    (scrapperClose ⟨false, true, false, 0, 1⟩).limiterRunning = true ∧
    (scrapperClose ⟨false, true, false, 0, 1⟩).limiterTaskCancelled = false ∧
    (rateLimiterClose ⟨false, true, false, 0, 1⟩).limiterValue = 0 ∧
    (rateLimiterClose ⟨false, true, false, 0, 1⟩).limiterWaiters = 1 :=
  ⟨rfl, rfl, rfl, rfl, rfl⟩

/-- C4 counterexample: the failures raised for a 5xx response, a 403
response, another 4xx response and a transport failure all have one and
the same exception class, `RuntimeError` — they are not four
distinguishable exception types named `ServerError`,
`ForbiddenOrRateLimited`, `ClientError`, `NetworkError`. -/
theorem safeRequest_uniform_exception_class :
    raisedClass (classifyResponse (.response 500 "b" .null)) = some "RuntimeError" ∧
    raisedClass (classifyResponse (.response 403 "b" .null)) = some "RuntimeError" ∧
    raisedClass (classifyResponse (.response 404 "b" .null)) = some "RuntimeError" ∧
    raisedClass (classifyResponse (.transportError "reset")) = some "RuntimeError" :=
  ⟨rfl, rfl, rfl, rfl⟩

/-- C4 (amended): every HTTP outcome of `_safe_request` is classified by
status — `>= 500`, then `== 403` (carrying the body), then other 4xx
(carrying status and body), transport failure wrapping the cause — each
raised as a `RuntimeError` whose message encodes the category, otherwise
the decoded JSON payload is returned; and the result depends only on the
first transport outcome: no retry happens inside the component. -/
theorem safeRequest_classification (send : Nat → RequestOutcome) :
    (∀ status body payload, send 0 = .response status body payload →
      (500 ≤ status →
        safeRequest send = .error (runtimeError ("GitHub server error " ++ toString status))) ∧
      (status = 403 →
        safeRequest send = .error (runtimeError ("Forbidden/Ratelimit: " ++ body))) ∧
      (400 ≤ status → status < 500 → status ≠ 403 →
        safeRequest send = .error (runtimeError ("Client error " ++ toString status ++ ": " ++ body))) ∧
      (status < 400 → safeRequest send = .ok payload)) ∧
    (∀ cause, send 0 = .transportError cause →
      safeRequest send = .error (runtimeError ("Network error: " ++ cause))) ∧
    (∀ send2, send2 0 = send 0 → safeRequest send2 = safeRequest send) := by
  refine ⟨?_, ?_, ?_⟩
  · intro status body payload hs
    rw [safeRequest, hs]
    refine ⟨?_, ?_, ?_, ?_⟩
    · intro h5
      simp [classifyResponse, h5]
    · intro h403
      have h5 : ¬ 500 ≤ status := by omega
      simp [classifyResponse, h5, h403]
    · intro h4 hlt hne
      have h5 : ¬ 500 ≤ status := by omega
      simp [classifyResponse, h5, hne, h4]
    · intro hlt
      have h5 : ¬ 500 ≤ status := by omega
      have hne : ¬ status = 403 := by omega
      have h4 : ¬ 400 ≤ status := by omega
      simp [classifyResponse, h5, hne, h4]
  · intro cause hs
    rw [safeRequest, hs]
    rfl
  · intro send2 h2
    rw [safeRequest, safeRequest, h2]

/-- C4 witness: concrete classifications through `safeRequest`. -/
theorem safeRequest_classification_witness :
    safeRequest (fun n => .response 503 "oops" .null) =
      .error (runtimeError ("GitHub server error " ++ toString 503)) ∧
    safeRequest (fun n => .transportError "reset") =
      .error (runtimeError ("Network error: " ++ "reset")) :=
  ⟨((safeRequest_classification (fun n => .response 503 "oops" .null)).1
      503 "oops" .null rfl).1 (by omega),
   (safeRequest_classification (fun n => .transportError "reset")).2.1 "reset" rfl⟩

/-- C2 counterexample: for the commits `[{author: {login: "a"}},
{author: {login: "b"}}, {author: {login: "a"}}, {author: null}]` the loop
yields `a: 2, b: 1` and no `unknown` entry — the commit with a `null`
author is skipped by `if not author_info: continue`, not counted under the
`"unknown"` sentinel, so the claimed result `a:2, b:1, unknown:1` is not
produced. -/
theorem aggregateAuthors_null_author_counterexample :
    aggregateAuthors [commitA, commitB, commitA, commitNullAuthor] [] =
      .ok [(Json.str "a", 2), (Json.str "b", 1)] ∧
    aggregateAuthors [commitA, commitB, commitA, commitNullAuthor] [] ≠
      .ok [(Json.str "a", 2), (Json.str "b", 1), (Json.str "unknown", 1)] := by
  constructor
  · rfl
  · intro hcontra
    rw [show aggregateAuthors [commitA, commitB, commitA, commitNullAuthor] [] =
      .ok [(Json.str "a", 2), (Json.str "b", 1)] from rfl] at hcontra
    injection hcontra with hcontra
    injection hcontra with hcontra1 hcontra
    injection hcontra with hcontra2 hcontra
    exact List.cons_ne_nil _ _ hcontra.symm

/-- C2 (amended): the aggregation skips commits whose author object is
absent or falsy; for the counted commits the author name is the login,
falling back to `"unknown"` only when the author object is present but its
login is missing or falsy; it emits one entry per distinct author name, in
first-seen order, each with a strictly positive count equal to the number
of commits attributed to that name.  In particular, for the input
`[{author:"a"}, {author:"b"}, {author:"a"}, {author:null}]` the counts are
`a:2, b:1`, with no `unknown` entry. -/
theorem aggregateAuthors_grouping (commits : List Json)
    (h : commits.all wellFormedCommit = true) :
    ∃ m, aggregateAuthors commits [] = .ok m ∧
      m.map Prod.fst = firstSeen [] (authorNames commits) ∧
      (m.map Prod.fst).Nodup ∧
      (∀ p ∈ m, p.2 = countJ (authorNames commits) p.1 ∧ 0 < p.2) := by
  refine ⟨(authorNames commits).foldl bump [],
    aggregateAuthors_eq_foldl commits [] h, ?_, ?_, ?_⟩
  · simpa using foldl_bump_map_fst (authorNames commits) []
  · exact foldl_bump_nodup (authorNames commits) [] (by simp)
  · intro p hp
    have hnd := foldl_bump_nodup (authorNames commits) [] (by simp)
    have hfv := findVal_of_mem _ hnd p hp
    have hcount := foldl_bump_findVal (authorNames commits) [] p.1
    constructor
    · rw [← hfv, hcount, findVal_nil]
      ring
    · exact foldl_bump_pos (authorNames commits) [] (by simp) p hp

/-- C2 witness: the amended grouping instantiated on the four-commit
input from the claim. -/
theorem aggregateAuthors_grouping_witness :
    ∃ m, aggregateAuthors [commitA, commitB, commitA, commitNullAuthor] [] = .ok m ∧
      m.map Prod.fst =
        firstSeen [] (authorNames [commitA, commitB, commitA, commitNullAuthor]) ∧
      (m.map Prod.fst).Nodup ∧
      (∀ p ∈ m,
        p.2 = countJ (authorNames [commitA, commitB, commitA, commitNullAuthor]) p.1 ∧
        0 < p.2) :=
  aggregateAuthors_grouping [commitA, commitB, commitA, commitNullAuthor] (by decide)

/-- C1: when the ranked-list fetch fails, `get_repositories` raises that
same failure; when it succeeds (with well-formed items, and well-formed
commit lists wherever a fetch succeeds), the call returns normally for
every commit-fetch collaborator — however many per-repository fetches
fail — with one entry per fetched item, and every repository whose commit
fetch failed appears with `authors_commits_num_today = []`. -/
theorem getRepositories_tolerates_commit_failures
    (searchResult : Except PyExc Json)
    (fetchCommits : Json → Json → Except PyExc (List Json)) :
    (∀ e, getTopRepositories searchResult = .error e →
      getRepositories searchResult fetchCommits = .error e) ∧
    (∀ jl : JsonList, getTopRepositories searchResult = .ok (.arr jl) →
      jl.toList.all wellFormedItem = true →
      commitsOk fetchCommits jl.toList = true →
      ∃ rs, getRepositories searchResult fetchCommits = .ok rs ∧
        rs.length = jl.toList.length ∧
        ∀ i (hi : i < jl.toList.length) (hi2 : i < rs.length), ∀ e,
          fetchCommits (((jl.toList.get ⟨i, hi⟩).getd "owner").getd "login")
              ((jl.toList.get ⟨i, hi⟩).getd "name") = .error e →
            (rs.get ⟨i, hi2⟩).authors_commits_num_today = []) := by
  constructor
  · intro e he
    exact getRepositories_of_topError _ _ e he
  · intro jl htop hwf hcs
    obtain ⟨rs, hrs, hlen, hidx⟩ := processAll_wf fetchCommits jl.toList 1 hwf hcs
    refine ⟨rs, ?_, hlen, hidx⟩
    rw [getRepositories_of_topArr _ _ jl htop]
    exact hrs

/-- C1 witness: with a successful two-item search and a collaborator that
fails the commit fetch for `Y`'s owner, the call succeeds and `Y` keeps an
empty author list. -/
theorem getRepositories_tolerates_commit_failures_witness :
    ∃ rs, getRepositories searchOkTwo fetchCommitsYFails = .ok rs ∧
      rs.length = itemsXY.toList.length ∧
      ∀ i (hi : i < itemsXY.toList.length) (hi2 : i < rs.length), ∀ e,
        fetchCommitsYFails (((itemsXY.toList.get ⟨i, hi⟩).getd "owner").getd "login")
            ((itemsXY.toList.get ⟨i, hi⟩).getd "name") = .error e →
          (rs.get ⟨i, hi2⟩).authors_commits_num_today = [] :=
  (getRepositories_tolerates_commit_failures searchOkTwo fetchCommitsYFails).2
    itemsXY rfl (by decide) (by decide)

/-- C3: every successful `get_repositories` call returns exactly one
`Repository` per fetched item, in the original rank order (`rs.get i` is
the result of processing `items.get i`), and the `position` fields form
the dense sequence `1..count`: the item's index plus 1. -/
theorem getRepositories_rank_order
    (searchResult : Except PyExc Json)
    (fetchCommits : Json → Json → Except PyExc (List Json))
    (jl : JsonList) (rs : List Repository)
    (htop : getTopRepositories searchResult = .ok (.arr jl))
    (h : getRepositories searchResult fetchCommits = .ok rs) :
    rs.length = jl.toList.length ∧
    ∀ i (hi : i < jl.toList.length) (hi2 : i < rs.length),
      processRepo fetchCommits (jl.toList.get ⟨i, hi⟩) ((i : Int) + 1) =
        .ok (rs.get ⟨i, hi2⟩) ∧
      (rs.get ⟨i, hi2⟩).position = (i : Int) + 1 := by
  rw [getRepositories_of_topArr _ _ jl htop] at h
  obtain ⟨hlen, hidx⟩ := processAll_ok fetchCommits jl.toList 1 rs h
  refine ⟨hlen, fun i hi hi2 => ?_⟩
  have hpr := hidx i hi hi2
  have harith : (1 : Int) + (i : Int) = (i : Int) + 1 := by ring
  rw [harith] at hpr
  exact ⟨hpr, processRepo_position fetchCommits _ _ _ hpr⟩

/-- C3 witness: the concrete two-item scrape returns `[repoX, repoY]`
with positions 1 and 2 matching the fetched order. -/
theorem getRepositories_rank_order_witness :
    [repoX, repoY].length = itemsXY.toList.length ∧
    ∀ i (hi : i < itemsXY.toList.length) (hi2 : i < [repoX, repoY].length),
      processRepo fetchCommitsYFails (itemsXY.toList.get ⟨i, hi⟩) ((i : Int) + 1) =
        .ok ([repoX, repoY].get ⟨i, hi2⟩) ∧
      ([repoX, repoY].get ⟨i, hi2⟩).position = (i : Int) + 1 :=
  getRepositories_rank_order searchOkTwo fetchCommitsYFails itemsXY
    [repoX, repoY] rfl rfl

/-- C5: in every reachable state of the `RateLimiter` — any sequence of
completed `acquire()`s and refill ticks from a fresh limiter, including
runs of consecutive ticks with no acquire — the available permit count
never exceeds the configured rate, and a further refill tick releases
exactly the deficit, leaving exactly `r` permits outstanding. -/
theorem rateLimiter_refill_never_exceeds_rate (r : Int) (hr : 1 ≤ r)
    (events : List RLEvent) (s : RLState)
    (h : rlRun (rlInit r) events = some s) :
    (s.value : Int) ≤ r ∧ ((rlTick s).value : Int) = r := by
  have hinit2 : ((rlInit r).value : Int) ≤ r := by
    simp only [rlInit]
    omega
  obtain ⟨h1, h2⟩ := rlRun_inv r events (rlInit r) s rfl hinit2 h
  refine ⟨h2, ?_⟩
  have htick := rlTick_value_of_le s (by rw [h1]; exact h2)
  rw [htick, h1]

/-- C5 witness: rate 2, two acquires, a tick (restoring the deficit of 2),
then one acquire; the bound and the exact-refill equation hold in the
reached state. -/
theorem rateLimiter_refill_never_exceeds_rate_witness :
    (((⟨2, 1⟩ : RLState).value : Int) ≤ 2) ∧ ((rlTick ⟨2, 1⟩).value : Int) = 2 :=
  rateLimiter_refill_never_exceeds_rate 2 (by decide)
    [.acquire, .acquire, .tick, .acquire] ⟨2, 1⟩ (by decide)

/-- C6: from a fresh `RateLimiter` with rate `r ≥ 1`, the first `r` rapid
`acquire()` calls all complete (draining the pool to 0), the `(r+1)`-th
acquire is not enabled in that state — it cannot complete before a refill
tick — and in any run containing no tick at most `r` acquires complete. -/
theorem rateLimiter_acquire_blocking (r : Int) (hr : 1 ≤ r) :
    rlRun (rlInit r) (List.replicate r.toNat .acquire) = some ⟨r, 0⟩ ∧
    rlStep ⟨r, 0⟩ RLEvent.acquire = none ∧
    (∀ events s, RLEvent.tick ∉ events → rlRun (rlInit r) events = some s →
      (events.count RLEvent.acquire : Int) ≤ r) := by
  refine ⟨?_, ?_, ?_⟩
  · have hd := rlRun_replicate_acquire r r.toNat r.toNat (le_refl _)
    rw [Nat.sub_self] at hd
    exact hd
  · simp [rlStep]
  · intro events s hnt h
    have hcnt : s.value + events.count RLEvent.acquire = (rlInit r).value :=
      rlRun_no_tick_count events (rlInit r) s hnt h
    have hv : (rlInit r).value = r.toNat := rfl
    rw [hv] at hcnt
    omega

/-- C6 witness: rate 2 — both acquires complete, the third is blocked, and
tick-free runs grant at most two permits. -/
theorem rateLimiter_acquire_blocking_witness :
    rlRun (rlInit 2) (List.replicate (Int.toNat 2) .acquire) = some ⟨2, 0⟩ ∧
    rlStep ⟨2, 0⟩ RLEvent.acquire = none ∧
    (∀ events s, RLEvent.tick ∉ events → rlRun (rlInit 2) events = some s →
      (events.count RLEvent.acquire : Int) ≤ 2) :=
  rateLimiter_acquire_blocking 2 (by decide)

/-- C7: under any interleaving of scoped acquisitions — any fan-out
width — the number of simultaneous holders of the concurrency gate never
exceeds its capacity `m`, no permit is lost (`value + holders = m`
throughout), and every `_safe_request` call acquires once and releases
exactly once, on the failure path as well as the success path. -/
theorem concurrencyGate_bound (m : Nat) (hm : 1 ≤ m) (events : List GateEvent)
    (s : GateState) (h : gateRun (gateInit m) events = some s) :
    s.holders ≤ m ∧ s.value + s.holders = m ∧
    ∀ failed : Bool, (safeRequestGateTrace failed).count GateEvent.acquire = 1 ∧
      (safeRequestGateTrace failed).count GateEvent.release = 1 := by
  have hinv := gateRun_inv m events (gateInit m) s (by simp [gateInit]) h
  refine ⟨by omega, hinv, ?_⟩
  intro failed
  cases failed <;> exact ⟨rfl, rfl⟩

/-- C7 witness: capacity 2 with three scoped units interleaved; the
reached state has one holder and one free permit. -/
theorem concurrencyGate_bound_witness :
    (⟨1, 1⟩ : GateState).holders ≤ 2 ∧
    (⟨1, 1⟩ : GateState).value + (⟨1, 1⟩ : GateState).holders = 2 ∧
    ∀ failed : Bool, (safeRequestGateTrace failed).count GateEvent.acquire = 1 ∧
      (safeRequestGateTrace failed).count GateEvent.release = 1 :=
  concurrencyGate_bound 2 (by decide) [.acquire, .acquire, .release] ⟨1, 1⟩ (by decide)

end Scraper
